import Mathlib

/-!
# AXS10X PLL clock driver and HS cpufreq driver

A shallow embedding of `drivers/clk/axs10x/pll_clock.c` and of
`hs_cpufreq_target_index` from `drivers/cpufreq/archs-cpufreq.c`.

Conventions of the embedding.

* C unsigned integers are natural numbers; every operation that can leave the
  range of its C type is reduced with an explicit `% 2 ^ width`.  `u32` values
  use width 32.  The width of `long` / `unsigned long` is the kernel constant
  `BITS_PER_LONG`, which the driver sources do not fix; it is the parameter
  `w` of every function that computes with `long` (32 on ARC, 64 on LP64).
* Signed `long` values are integers in `[-2^(w-1), 2^(w-1))`.
* A C array that ends with an all-zero element is a list.  The scans below stop
  at the first zero element exactly as the C loops do, and treat the end of the
  list as that element too.
* Memory-mapped registers are explicit state (`pll_clk`); the state carries the
  trace of `iowrite32` calls so that the effect of a call can be stated.
-/

namespace Axs10x

/-! ## Machine integers -/

/-- Conversion of an `unsigned long` bit pattern to `long` (two's complement). -/
def to_long (w : Nat) (x : Nat) : Int :=
  if x % 2 ^ w < 2 ^ (w - 1) then ((x % 2 ^ w : Nat) : Int)
  else ((x % 2 ^ w : Nat) : Int) - ((2 ^ w : Nat) : Int)

/-- Conversion of a `long` to `unsigned long` (reduction modulo `2^w`). -/
def to_ulong (w : Nat) (x : Int) : Nat :=
  (x % ((2 ^ w : Nat) : Int)).toNat

/-- Subtraction of two `unsigned long` values. -/
def ulong_sub (w : Nat) (a b : Nat) : Nat :=
  (a % 2 ^ w + (2 ^ w - b % 2 ^ w)) % 2 ^ w

/-- Modelled from the spec: the absolute value of section 4.1, as the kernel
macro `abs()` of `include/linux/kernel.h` computes it (that header is not among
the sources).  An argument of type `unsigned long` is first converted to `long`:
`({ signed long __x = (x); __x < 0 ? -__x : __x; })`; the negation wraps, the
kernel being built with `-fno-strict-overflow`. -/
def abs_long (w : Nat) (x : Nat) : Int :=
  let __x := to_long w x
  if __x < 0 then to_long w (to_ulong w (-__x)) else __x

/-- Kernel macro `BIT(nr)`, `1UL << nr`, from `include/linux/bitops.h`. -/
def BIT (nr : Nat) : Nat := 1 <<< nr

/-- Kernel errno value `EINVAL` (`include/uapi/asm-generic/errno-base.h`). -/
def EINVAL : Int := 22

/-- Kernel errno value `ETIMEDOUT` (`include/uapi/asm-generic/errno.h`). -/
def ETIMEDOUT : Int := 110

/-! ## Register layout (`pll_clock.c`, lines 22-66) -/

def PLL_REG_IDIV : Nat := 0x0
def PLL_REG_FBDIV : Nat := 0x4
def PLL_REG_ODIV : Nat := 0x8

def PLL_REG_GET_LOW (reg : Nat) : Nat := (reg &&& (0x3F <<< 0)) >>> 0
def PLL_REG_GET_HIGH (reg : Nat) : Nat := (reg &&& (0x3F <<< 6)) >>> 6
def PLL_REG_GET_EDGE (reg : Nat) : Nat := if reg &&& BIT 12 ≠ 0 then 1 else 0
def PLL_REG_GET_BYPASS (reg : Nat) : Nat := if reg &&& BIT 13 ≠ 0 then 1 else 0
def PLL_REG_GET_NOUPD (reg : Nat) : Nat := if reg &&& BIT 14 ≠ 0 then 1 else 0
def PLL_REG_GET_PAD (reg : Nat) : Nat := (reg &&& (0x1FFFF <<< 15)) >>> 15

def PLL_REG_SET_LOW (reg value : Nat) : Nat := reg ||| ((value &&& 0x3F) <<< 0)
def PLL_REG_SET_HIGH (reg value : Nat) : Nat := reg ||| ((value &&& 0x3F) <<< 6)
def PLL_REG_SET_EDGE (reg value : Nat) : Nat := reg ||| ((value &&& 0x01) <<< 12)
def PLL_REG_SET_BYPASS (reg value : Nat) : Nat := reg ||| ((value &&& 0x01) <<< 13)
def PLL_REG_SET_NOUPD (reg value : Nat) : Nat := reg ||| ((value &&& 0x01) <<< 14)

def PLL_LOCK : Nat := 0x1

/-! ## Divider decoding and encoding (`pll_clock.c`, lines 144-163) -/

/-- Source `div_get_value(unsigned int reg)`. -/
def div_get_value (reg : Nat) : Nat :=
  if PLL_REG_GET_BYPASS reg ≠ 0 then 1
  else (PLL_REG_GET_HIGH reg + PLL_REG_GET_LOW reg) % 2 ^ 32

/-- Source `encode_div(unsigned int id, int upd)`; `!upd` is 1 exactly when
`upd` is 0. -/
def encode_div (id : Nat) (upd : Int) : Nat :=
  let div := 0
  let div := PLL_REG_SET_LOW div (if id % 2 = 0 then id >>> 1 else ((id >>> 1) + 1) % 2 ^ 32)
  let div := PLL_REG_SET_HIGH div (id >>> 1)
  let div := PLL_REG_SET_EDGE div (id % 2)
  let div := PLL_REG_SET_BYPASS div (if id = 1 then 1 else 0)
  let div := PLL_REG_SET_NOUPD div (if upd = 0 then 1 else 0)
  div

/-! ## Divider tables (`pll_clock.c`, lines 68-117) -/

/-- Source `struct pll_cfg`; all four fields are `u32`. -/
structure pll_cfg where
  rate : Nat
  idiv : Nat
  fbdiv : Nat
  odiv : Nat
  deriving DecidableEq, Repr

/-- Source `struct pll_of_table`.  `prate` is an `unsigned long`;
`pll_cfg_table` is a pointer, `none` being `NULL`. -/
structure pll_of_table where
  prate : Nat
  pll_cfg_table : Option (List pll_cfg)
  deriving DecidableEq, Repr

/-- Source `struct pll_of_data`. -/
structure pll_of_data where
  pll_table : List pll_of_table
  deriving DecidableEq, Repr

/-- The divider list of `pgu_pll_data` (parent rate 27000000), terminator
included. -/
def pgu_cfg_table : List pll_cfg :=
  [ ⟨25200000, 1, 84, 90⟩,
    ⟨50000000, 1, 100, 54⟩,
    ⟨74250000, 1, 44, 16⟩,
    ⟨0, 0, 0, 0⟩ ]

def pgu_pll_data : pll_of_data :=
  { pll_table :=
      [ { prate := 27000000, pll_cfg_table := some pgu_cfg_table },
        { prate := 0, pll_cfg_table := none } ] }

/-- The divider list of `arc_pll_data` (parent rate 33333333), terminator
included. -/
def arc_cfg_table : List pll_cfg :=
  [ ⟨33333333, 1, 1, 1⟩,
    ⟨50000000, 1, 30, 20⟩,
    ⟨75000000, 2, 45, 10⟩,
    ⟨90000000, 2, 54, 10⟩,
    ⟨100000000, 1, 30, 10⟩,
    ⟨125000000, 2, 45, 6⟩,
    ⟨0, 0, 0, 0⟩ ]

def arc_pll_data : pll_of_data :=
  { pll_table :=
      [ { prate := 33333333, pll_cfg_table := some arc_cfg_table },
        { prate := 0, pll_cfg_table := none } ] }

/-! ## Device state and register access (`pll_clock.c`, lines 119-137) -/

/-- Source `struct pll_clk`.  `base` gives the word held at each byte offset of
the divider register block, `lock` the word that reading the lock-status
register yields.  `writes` is the trace of `pll_write` calls, oldest first, as
(offset, value) pairs; it is not a field of the C structure. -/
structure pll_clk where
  base : Nat → Nat
  lock : Nat
  pll_data : pll_of_data
  writes : List (Nat × Nat)

/-- Source `pll_write`: `iowrite32(val, clk->base + reg)`. -/
def pll_write (clk : pll_clk) (reg val : Nat) : pll_clk :=
  { clk with
    base := fun r => if r = reg then val % 2 ^ 32 else clk.base r
    writes := clk.writes ++ [(reg, val % 2 ^ 32)] }

/-- Source `pll_read`: `ioread32(clk->base + reg)`. -/
def pll_read (clk : pll_clk) (reg : Nat) : Nat :=
  clk.base reg % 2 ^ 32

/-! ## Table lookup (`pll_clock.c`, lines 165-175) -/

/-- Source `pll_get_cfg`: scan up to the element whose `prate` is 0. -/
def pll_get_cfg (prate : Nat) : List pll_of_table → Option (List pll_cfg)
  | [] => none
  | t :: rest =>
    if t.prate = 0 then none
    else if t.prate = prate then t.pll_cfg_table
    else pll_get_cfg prate rest

/-! ## Clock operations (`pll_clock.c`, lines 177-258) -/

/-- Source `pll_recalc_rate`.  `rate` is a `u64`, the divisor `idiv * odiv` a
`u32`; `do_div` divides the former by the latter, and dividing by zero has no
result.  The return value is converted to `unsigned long`. -/
def pll_recalc_rate (w : Nat) (clk : pll_clk) (parent_rate : Nat) : Option Nat :=
  let idiv := div_get_value (pll_read clk PLL_REG_IDIV)
  let fbdiv := div_get_value (pll_read clk PLL_REG_FBDIV)
  let odiv := div_get_value (pll_read clk PLL_REG_ODIV)
  let rate := (parent_rate * fbdiv) % 2 ^ 64
  let base := (idiv * odiv) % 2 ^ 32
  if base = 0 then none
  else
    let rate := rate / base
    some (rate % 2 ^ w)

/-- The loop of `pll_round_rate` from index 1 on; `best_rate` is a `long`. -/
def pll_round_rate_loop (w : Nat) (rate : Nat) : List pll_cfg → Int → Int
  | [], best_rate => best_rate
  | c :: rest, best_rate =>
    if c.rate = 0 then best_rate
    else if abs_long w (ulong_sub w rate c.rate)
          < abs_long w (ulong_sub w rate (to_ulong w best_rate)) then
      pll_round_rate_loop w rate rest (to_long w c.rate)
    else pll_round_rate_loop w rate rest best_rate

/-- Source `pll_round_rate`; `prate` is the value `*prate`. -/
def pll_round_rate (w : Nat) (clk : pll_clk) (rate prate : Nat) : Int :=
  match pll_get_cfg prate clk.pll_data.pll_table with
  | none => -EINVAL
  | some [] => -EINVAL
  | some (c0 :: rest) =>
    if c0.rate = 0 then -EINVAL
    else pll_round_rate_loop w rate rest (to_long w c0.rate)

/-- The loop of `pll_set_rate`. -/
def pll_set_rate_loop (clk : pll_clk) (rate : Nat) : List pll_cfg → Int × pll_clk
  | [] => (-EINVAL, clk)
  | c :: rest =>
    if c.rate = 0 then (-EINVAL, clk)
    else if c.rate = rate then
      let clk := pll_write clk PLL_REG_IDIV (encode_div c.idiv 0)
      let clk := pll_write clk PLL_REG_FBDIV (encode_div c.fbdiv 0)
      let clk := pll_write clk PLL_REG_ODIV (encode_div c.odiv 1)
      if clk.lock &&& PLL_LOCK ≠ 0 then (0, clk) else (-ETIMEDOUT, clk)
    else pll_set_rate_loop clk rate rest

/-- Source `pll_set_rate`: the return value and the device state left behind.
`udelay` changes nothing in the state; `clk.lock` is the word sampled after
it. -/
def pll_set_rate (clk : pll_clk) (rate parent_rate : Nat) : Int × pll_clk :=
  match pll_get_cfg parent_rate clk.pll_data.pll_table with
  | none => (-EINVAL, clk)
  | some pll_cfg => pll_set_rate_loop clk rate pll_cfg

/-! ## CPU frequency driver (`archs-cpufreq.c`, lines 21-75) -/

/-- Kernel `struct cpufreq_frequency_table`: three `unsigned int` fields. -/
structure cpufreq_frequency_table where
  flags : Nat
  driver_data : Nat
  frequency : Nat
  deriving DecidableEq, Repr

/-- Kernel constant `CPUFREQ_TABLE_END`, `~1u`. -/
def CPUFREQ_TABLE_END : Nat := 0xFFFFFFFE

def HS_CPUFREQ_MAX_DEVIATION : Nat := 1000

def hs_freq_table : List cpufreq_frequency_table :=
  [ ⟨0, 0, 33333⟩,
    ⟨0, 0, 50000⟩,
    ⟨0, 0, 75000⟩,
    ⟨0, 0, 80000⟩,
    ⟨0, 0, 90000⟩,
    ⟨0, 0, 100000⟩,
    ⟨0, 0, CPUFREQ_TABLE_END⟩ ]

/-- Source `hs_cpufreq_target_index`.  The clock framework calls
`clk_round_rate` (returning `long`) and `clk_set_rate` (returning `int`) are
parameters.  The result is the return value together with the list of rates
handed to `clk_set_rate`; an index outside the table has no result.
`rounded_rate` is an `unsigned long`, so the test `rounded_rate < 0` compares
natural numbers. -/
def hs_cpufreq_target_index (w : Nat) (clk_round_rate : Nat → Int)
    (clk_set_rate : Nat → Int) (freq_table : List cpufreq_frequency_table)
    (index : Nat) : Option (Int × List Nat) :=
  match freq_table[index]? with
  | none => none
  | some entry =>
    let frequency := entry.frequency % 2 ^ w
    let rounded_rate := to_ulong w (clk_round_rate ((frequency * 1000) % 2 ^ w))
    if rounded_rate < 0 then some (-EINVAL, [])
    else if rounded_rate < ulong_sub w ((frequency * 1000) % 2 ^ w) HS_CPUFREQ_MAX_DEVIATION
        ∨ rounded_rate > ((frequency * 1000) % 2 ^ w + HS_CPUFREQ_MAX_DEVIATION) % 2 ^ w then
      some (-EINVAL, [])
    else if clk_set_rate rounded_rate ≠ 0 then some (-EINVAL, [rounded_rate])
    else some (0, [rounded_rate])

/-! ## Reading of the specification -/

/-- The entries of a zero-terminated divider list: those before the first
element whose rate is 0. -/
def cfg_entries (cfgs : List pll_cfg) : List pll_cfg :=
  cfgs.takeWhile (fun c => decide (c.rate ≠ 0))

/-- The entries of a zero-terminated parent-rate table. -/
def table_entries (table : List pll_of_table) : List pll_of_table :=
  table.takeWhile (fun t => decide (t.prate ≠ 0))

/-- Absolute difference of two rates, `abs(requestedRate - outputRate)` of
section 4.1 of the specification, over the integers. -/
def rate_distance (a b : Nat) : Nat := if a ≤ b then b - a else a - b

/-- Section 4.1 of the specification: `r` is the output rate of the first
entry, in list order, at minimal distance from the requested rate. -/
def is_first_nearest (requested : Nat) (entries : List pll_cfg) (r : Nat) : Prop :=
  ∃ pre c post, entries = pre ++ c :: post ∧ c.rate = r ∧
    (∀ e ∈ pre, rate_distance requested c.rate < rate_distance requested e.rate) ∧
    (∀ e ∈ post, rate_distance requested c.rate ≤ rate_distance requested e.rate)

/-- Section 4.1 of the specification: the divider list of a parent rate is that
of the first table entry whose parent rate matches exactly. -/
def parent_list (parentRate : Nat) (table : List pll_of_table) : Option (List pll_cfg) :=
  match (table_entries table).find? (fun t => decide (t.prate = parentRate)) with
  | none => none
  | some t => t.pll_cfg_table

/-- Section 4.2 of the specification: the first entry of a list whose output
rate is exactly the requested rate. -/
def resolve (rate : Nat) (cfgs : List pll_cfg) : Option pll_cfg :=
  (cfg_entries cfgs).find? (fun c => decide (c.rate = rate))

/-- Section 4.1 of the specification as a linear scan: keep the first best
rate, replacing it only by a strictly nearer one. -/
def nearest_scan (requested : Nat) : List pll_cfg → Nat → Nat
  | [], best => best
  | e :: es, best =>
    if rate_distance requested e.rate < rate_distance requested best then
      nearest_scan requested es e.rate
    else nearest_scan requested es best

/-- The device after the three divider writes of `pll_set_rate` for entry `c`. -/
def programmed (clk : pll_clk) (c : pll_cfg) : pll_clk :=
  pll_write
    (pll_write (pll_write clk PLL_REG_IDIV (encode_div c.idiv 0))
      PLL_REG_FBDIV (encode_div c.fbdiv 0))
    PLL_REG_ODIV (encode_div c.odiv 1)

/-- A device whose tables are `data`, with all divider registers holding 0. -/
def pll_clk_init (data : pll_of_data) (lock : Nat) : pll_clk :=
  { base := fun _ => 0, lock := lock, pll_data := data, writes := [] }

/-! ## Table lookup -/

/-- The scan of `pll_get_cfg` finds the list of the first matching entry before
the terminator. -/
theorem pll_get_cfg_eq_parent_list (p : Nat) (table : List pll_of_table) :
    pll_get_cfg p table = parent_list p table := by
  induction table with
  | nil => rfl
  | cons t rest ih =>
    unfold parent_list table_entries at ih ⊢
    by_cases h0 : t.prate = 0
    · simp [pll_get_cfg, List.takeWhile, h0]
    · by_cases hp : t.prate = p
      · subst hp
        simp [pll_get_cfg, List.takeWhile, List.find?, h0]
      · simp only [pll_get_cfg, List.takeWhile, List.find?, h0, hp, if_false, ne_eq,
          not_false_eq_true, decide_True, decide_False]
        exact ih

/-- A parent rate matched by no entry before the terminator has no list. -/
theorem parent_list_none_of_no_match (p : Nat) (table : List pll_of_table)
    (h : ∀ t ∈ table_entries table, t.prate ≠ p) : parent_list p table = none := by
  unfold parent_list
  have hf : (table_entries table).find? (fun t => decide (t.prate = p)) = none := by
    rw [List.find?_eq_none]
    intro t ht
    simpa using h t ht
  rw [hf]

/-- The loop of `pll_set_rate` programs the first exactly matching entry before
the terminator, or fails without touching the device. -/
theorem pll_set_rate_loop_eq (clk : pll_clk) (rate : Nat) (cfgs : List pll_cfg) :
    pll_set_rate_loop clk rate cfgs =
      match resolve rate cfgs with
      | none => (-EINVAL, clk)
      | some c =>
        (if clk.lock &&& PLL_LOCK ≠ 0 then 0 else -ETIMEDOUT, programmed clk c) := by
  induction cfgs with
  | nil => rfl
  | cons c rest ih =>
    unfold resolve cfg_entries at ih ⊢
    by_cases h0 : c.rate = 0
    · simp [pll_set_rate_loop, List.takeWhile, h0]
    · by_cases hr : c.rate = rate
      · subst hr
        by_cases hl : clk.lock &&& PLL_LOCK = 0 <;>
          simp [pll_set_rate_loop, List.takeWhile, List.find?, h0, programmed, pll_write, hl]
      · simp only [pll_set_rate_loop, List.takeWhile, List.find?, h0, hr, if_false, ne_eq,
          not_false_eq_true, decide_True, decide_False]
        exact ih

/-- The whole of `pll_set_rate` in terms of the two lookups of the
specification. -/
theorem pll_set_rate_eq (clk : pll_clk) (rate parent_rate : Nat) :
    pll_set_rate clk rate parent_rate =
      match parent_list parent_rate clk.pll_data.pll_table with
      | none => (-EINVAL, clk)
      | some cfgs =>
        match resolve rate cfgs with
        | none => (-EINVAL, clk)
        | some c =>
          (if clk.lock &&& PLL_LOCK ≠ 0 then 0 else -ETIMEDOUT, programmed clk c) := by
  unfold pll_set_rate
  rw [pll_get_cfg_eq_parent_list]
  cases parent_list parent_rate clk.pll_data.pll_table with
  | none => rfl
  | some cfgs => exact pll_set_rate_loop_eq clk rate cfgs

/-- No exact match among the entries of a list means `resolve` fails, and
conversely. -/
theorem resolve_eq_none_iff (rate : Nat) (cfgs : List pll_cfg) :
    resolve rate cfgs = none ↔ ∀ e ∈ cfg_entries cfgs, e.rate ≠ rate := by
  unfold resolve
  rw [List.find?_eq_none]
  constructor
  · intro h e he
    simpa using h e he
  · intro h e he
    simpa using h e he

/-- Every encoded word fits in 15 bits, so `iowrite32` stores it unchanged. -/
theorem encode_div_lt (d : Nat) (upd : Int) : encode_div d upd < 2 ^ 15 := by
  unfold encode_div PLL_REG_SET_LOW PLL_REG_SET_HIGH PLL_REG_SET_EDGE PLL_REG_SET_BYPASS
    PLL_REG_SET_NOUPD
  have hf : ∀ (v m k : Nat), (m + 1) * 2 ^ k ≤ 2 ^ 15 → (v &&& m) <<< k < 2 ^ 15 := by
    intro v m k hk
    rw [Nat.shiftLeft_eq]
    have h1 : v &&& m ≤ m := Nat.and_le_right
    calc (v &&& m) * 2 ^ k < (m + 1) * 2 ^ k :=
          Nat.mul_lt_mul_of_pos_right (by omega) (Nat.two_pow_pos k)
      _ ≤ 2 ^ 15 := hk
  refine Nat.or_lt_two_pow (Nat.or_lt_two_pow (Nat.or_lt_two_pow (Nat.or_lt_two_pow
    (Nat.or_lt_two_pow (by decide) (hf _ _ _ (by decide))) (hf _ _ _ (by decide)))
    (hf _ _ _ (by decide))) (hf _ _ _ (by decide))) (hf _ _ _ (by decide))

/-- The write trace after programming entry `c`. -/
theorem programmed_writes (clk : pll_clk) (c : pll_cfg) :
    (programmed clk c).writes =
      clk.writes ++ [(0, encode_div c.idiv 0), (4, encode_div c.fbdiv 0),
        (8, encode_div c.odiv 1)] := by
  have h1 := encode_div_lt c.idiv 0
  have h2 := encode_div_lt c.fbdiv 0
  have h3 := encode_div_lt c.odiv 1
  have e1 : encode_div c.idiv 0 % 2 ^ 32 = encode_div c.idiv 0 :=
    Nat.mod_eq_of_lt (lt_trans h1 (by decide))
  have e2 : encode_div c.fbdiv 0 % 2 ^ 32 = encode_div c.fbdiv 0 :=
    Nat.mod_eq_of_lt (lt_trans h2 (by decide))
  have e3 : encode_div c.odiv 1 % 2 ^ 32 = encode_div c.odiv 1 :=
    Nat.mod_eq_of_lt (lt_trans h3 (by decide))
  simp only [programmed, pll_write, e1, e2, e3, PLL_REG_IDIV, PLL_REG_FBDIV, PLL_REG_ODIV,
    List.append_assoc, List.cons_append, List.nil_append]

/-! ## Encoder and decoder -/

/-- The update flag enters `encode_div` only through `!upd`. -/
theorem encode_div_upd (d : Nat) (upd : Int) :
    encode_div d upd = encode_div d (if upd = 0 then 0 else 1) := by
  by_cases h : upd = 0 <;> simp [encode_div, h]

/-- Decoding after encoding, checked on every divider from 0 to 126. -/
theorem decode_encode_table :
    ∀ d, d < 127 → 1 ≤ d →
      div_get_value (encode_div d 0) = d ∧ div_get_value (encode_div d 1) = d := by
  decide

/-- The fields of the encoded word, checked on every divider from 0 to 126. -/
theorem encode_fields_table :
    ∀ d : Nat, d < 127 → ∀ u : Nat, u < 2 → 1 ≤ d →
      encode_div d (u : Int) % 64 = (if d % 2 = 0 then d / 2 else d / 2 + 1) ∧
      encode_div d (u : Int) / 64 % 64 = d / 2 ∧
      encode_div d (u : Int) / 4096 % 2 = d % 2 ∧
      encode_div d (u : Int) / 8192 % 2 = (if d = 1 then 1 else 0) ∧
      encode_div d (u : Int) / 16384 % 2 = (if u = 0 then 1 else 0) ∧
      encode_div d (u : Int) / 32768 = 0 := by
  decide

/-- No register word decodes to more than 126: both half-cycle fields are
six bits wide. -/
theorem div_get_value_le (reg : Nat) : div_get_value reg ≤ 126 := by
  unfold div_get_value
  split
  · omega
  · have h1 : PLL_REG_GET_LOW reg ≤ 63 := by
      unfold PLL_REG_GET_LOW
      simp only [Nat.shiftLeft_zero, Nat.shiftRight_zero]
      exact Nat.and_le_right
    have h2 : PLL_REG_GET_HIGH reg ≤ 63 := by
      unfold PLL_REG_GET_HIGH
      rw [Nat.shiftRight_eq_div_pow]
      have h : reg &&& (0x3F <<< 6) ≤ 0x3F <<< 6 := Nat.and_le_right
      have e : (0x3F <<< 6 : Nat) = 4032 := by decide
      rw [e] at h ⊢
      omega
    have h3 : (PLL_REG_GET_HIGH reg + PLL_REG_GET_LOW reg) % 2 ^ 32
        ≤ PLL_REG_GET_HIGH reg + PLL_REG_GET_LOW reg := Nat.mod_le _ _
    omega

/-- A word with bit 13 set has a non-zero bypass field. -/
theorem bypass_of_testBit (reg : Nat) (h : reg.testBit 13 = true) :
    PLL_REG_GET_BYPASS reg = 1 := by
  unfold PLL_REG_GET_BYPASS BIT
  have hne : reg &&& 1 <<< 13 ≠ 0 := by
    intro h0
    have ht : (reg &&& 1 <<< 13).testBit 13 = true := by
      rw [Nat.testBit_and, h]
      decide
    rw [h0] at ht
    simp at ht
  rw [if_pos hne]

/-- Claim C3, as amended: for every divider value `d ≥ 2` and every update
flag, decoding the encoded register gives `d` back exactly when `d ≤ 126`,
that is when both half-cycle counts fit their 6-bit fields. -/
theorem C3_decode_encode_iff (d : Nat) (upd : Int) (h2 : 2 ≤ d) :
    div_get_value (encode_div d upd) = d ↔ d ≤ 126 := by
  constructor
  · intro h
    have := div_get_value_le (encode_div d upd)
    omega
  · intro h
    rw [encode_div_upd]
    have ht := decode_encode_table d (by omega) (by omega)
    by_cases hu : upd = 0
    · simp only [hu, if_true]; exact ht.1
    · simp only [hu, if_false]; exact ht.2

/-- Claim C3 at a concrete divider: 100 round-trips with the update flag
clear. -/
theorem C3_decode_encode_iff_witness :
    2 ≤ 100 ∧ (div_get_value (encode_div 100 0) = 100 ↔ 100 ≤ 126) :=
  ⟨by decide, C3_decode_encode_iff 100 0 (by decide)⟩

/-- Claim C3 as stated fails: the `u32` divider 127 is at least 2, and its
encoding decodes to 63 (the low count 64 does not fit six bits). -/
theorem C3_counterexample :
    ¬ (∀ (d : Nat) (upd : Int), 2 ≤ d → d < 2 ^ 32 →
        div_get_value (encode_div d upd) = d) := by
  intro h
  have h127 := h 127 0 (by decide) (by decide)
  revert h127
  decide

/-- Claim C8: for `1 ≤ d ≤ 126` the word returned by `encode_div d upd` has
low field (bits 5:0) `d/2` for even `d` and `d/2 + 1` for odd `d`, high field
(bits 11:6) `d/2`, edge bit 12 equal to `d mod 2`, bypass bit 13 set exactly
when `d = 1`, noUpdate bit 14 set exactly when `upd = 0`, and bits 31:15
zero. -/
theorem C8_encode_div_fields (d : Nat) (upd : Int) (h1 : 1 ≤ d) (h126 : d ≤ 126) :
    encode_div d upd % 64 = (if d % 2 = 0 then d / 2 else d / 2 + 1) ∧
    encode_div d upd / 64 % 64 = d / 2 ∧
    encode_div d upd / 4096 % 2 = d % 2 ∧
    encode_div d upd / 8192 % 2 = (if d = 1 then 1 else 0) ∧
    encode_div d upd / 16384 % 2 = (if upd = 0 then 1 else 0) ∧
    encode_div d upd / 32768 = 0 := by
  rw [encode_div_upd]
  by_cases hu : upd = 0
  · simpa [hu] using encode_fields_table d (by omega) 0 (by decide) h1
  · simpa [hu] using encode_fields_table d (by omega) 1 (by decide) h1

/-- Claim C8 at the odd divider 45 with the update flag set. -/
theorem C8_encode_div_fields_witness :
    encode_div 45 1 % 64 = 23 ∧ encode_div 45 1 / 64 % 64 = 22 ∧
    encode_div 45 1 / 4096 % 2 = 1 ∧ encode_div 45 1 / 8192 % 2 = 0 ∧
    encode_div 45 1 / 16384 % 2 = 0 ∧ encode_div 45 1 / 32768 = 0 := by
  simpa using C8_encode_div_fields 45 1 (by decide) (by decide)

/-- Claim C10: for `1 ≤ d ≤ 126` and every update flag, decoding the encoded
register gives `d`; the encoding of 1 has the bypass bit 13 set and decodes to
1; and every register word with bit 13 set decodes to 1. -/
theorem C10_decode_encode_bypass :
    (∀ (d : Nat) (upd : Int), 1 ≤ d → d ≤ 126 →
        div_get_value (encode_div d upd) = d) ∧
    (∀ upd : Int, (encode_div 1 upd).testBit 13 = true ∧
        div_get_value (encode_div 1 upd) = 1) ∧
    (∀ reg : Nat, reg.testBit 13 = true → div_get_value reg = 1) := by
  have hdec : ∀ (d : Nat) (upd : Int), 1 ≤ d → d ≤ 126 →
      div_get_value (encode_div d upd) = d := by
    intro d upd h1 h126
    rw [encode_div_upd]
    have ht := decode_encode_table d (by omega) h1
    by_cases hu : upd = 0
    · simp only [hu, if_true]; exact ht.1
    · simp only [hu, if_false]; exact ht.2
  refine ⟨hdec, ?_, ?_⟩
  · intro upd
    refine ⟨?_, hdec 1 upd (by decide) (by decide)⟩
    rw [encode_div_upd]
    by_cases hu : upd = 0
    · simp only [hu, if_true]; decide
    · simp only [hu, if_false]; decide
  · intro reg h
    unfold div_get_value
    rw [bypass_of_testBit reg h]
    simp

/-- Claim C10 at concrete inputs: divider 126, and the all-ones 32-bit word. -/
theorem C10_decode_encode_bypass_witness :
    div_get_value (encode_div 126 0) = 126 ∧ div_get_value 0xFFFFFFFF = 1 :=
  ⟨C10_decode_encode_bypass.1 126 0 (by decide) (by decide),
   C10_decode_encode_bypass.2.2 0xFFFFFFFF (by decide)⟩

/-! ## Rate selection failures, rate setting -/

/-- Claim C2: when the parent rate `p` (zero included) equals the `prate` of no
table entry before the terminator, `pll_round_rate` returns `-EINVAL` for every
requested rate, hence no rate of any list of the table; it also returns
`-EINVAL` when the matched list has no entry before its zero-rate
terminator. -/
theorem C2_round_rate_not_found (w : Nat) (clk : pll_clk) (rate p : Nat) :
    ((∀ t ∈ table_entries clk.pll_data.pll_table, t.prate ≠ p) →
        pll_round_rate w clk rate p = -EINVAL ∧
        ∀ t ∈ clk.pll_data.pll_table, ∀ cfgs, t.pll_cfg_table = some cfgs →
          ∀ c ∈ cfgs, pll_round_rate w clk rate p ≠ (c.rate : Int)) ∧
    (∀ cfgs, parent_list p clk.pll_data.pll_table = some cfgs → cfg_entries cfgs = [] →
        pll_round_rate w clk rate p = -EINVAL) := by
  constructor
  · intro h
    have hnone := parent_list_none_of_no_match p _ h
    have hr : pll_round_rate w clk rate p = -EINVAL := by
      unfold pll_round_rate
      rw [pll_get_cfg_eq_parent_list, hnone]
    refine ⟨hr, ?_⟩
    intro t _ cfgs _ c _
    rw [hr]
    unfold EINVAL
    omega
  · intro cfgs hl hempty
    unfold pll_round_rate
    rw [pll_get_cfg_eq_parent_list, hl]
    cases cfgs with
    | nil => rfl
    | cons c0 rest =>
      by_cases h0 : c0.rate = 0
      · simp [h0]
      · exfalso
        simp [cfg_entries, List.takeWhile, h0] at hempty

/-- Claim C2 on the PGU table: parent rates 0 and 33333333 are not in it, and a
table whose only list holds just the terminator gives `-EINVAL` as well. -/
theorem C2_round_rate_not_found_witness :
    pll_round_rate 32 (pll_clk_init pgu_pll_data 0) 50000000 0 = -EINVAL ∧
    pll_round_rate 32 (pll_clk_init pgu_pll_data 0) 50000000 33333333 = -EINVAL ∧
    pll_round_rate 32
      (pll_clk_init ⟨[⟨27000000, some [⟨0, 0, 0, 0⟩]⟩, ⟨0, none⟩]⟩ 0) 50000000 27000000
      = -EINVAL :=
  ⟨((C2_round_rate_not_found 32 (pll_clk_init pgu_pll_data 0) 50000000 0).1
      (by decide)).1,
   ((C2_round_rate_not_found 32 (pll_clk_init pgu_pll_data 0) 50000000 33333333).1
      (by decide)).1,
   (C2_round_rate_not_found 32
      (pll_clk_init ⟨[⟨27000000, some [⟨0, 0, 0, 0⟩]⟩, ⟨0, none⟩]⟩ 0) 50000000 27000000).2
      [⟨0, 0, 0, 0⟩] (by decide) (by decide)⟩

/-- Claim C4: `pll_set_rate` returns `-EINVAL` exactly when the parent rate has
no list in the table or no entry of its list has the requested rate; otherwise
it returns 0 when bit 0 of the sampled lock word is set and `-ETIMEDOUT` when
it is clear; there is no other outcome. -/
theorem C4_set_rate_outcomes (clk : pll_clk) (rate parent_rate : Nat) :
    ((pll_set_rate clk rate parent_rate).1 = -EINVAL ↔
        (parent_list parent_rate clk.pll_data.pll_table = none ∨
         ∃ cfgs, parent_list parent_rate clk.pll_data.pll_table = some cfgs ∧
           ∀ e ∈ cfg_entries cfgs, e.rate ≠ rate)) ∧
    ((pll_set_rate clk rate parent_rate).1 ≠ -EINVAL →
        (clk.lock % 2 = 1 → (pll_set_rate clk rate parent_rate).1 = 0) ∧
        (clk.lock % 2 = 0 → (pll_set_rate clk rate parent_rate).1 = -ETIMEDOUT)) ∧
    ((pll_set_rate clk rate parent_rate).1 = -EINVAL ∨
     (pll_set_rate clk rate parent_rate).1 = 0 ∨
     (pll_set_rate clk rate parent_rate).1 = -ETIMEDOUT) := by
  cases hl : parent_list parent_rate clk.pll_data.pll_table with
  | none =>
    have key : pll_set_rate clk rate parent_rate = (-EINVAL, clk) := by
      rw [pll_set_rate_eq, hl]
    rw [key]
    simp
  | some cfgs =>
    cases hr : resolve rate cfgs with
    | none =>
      have key : pll_set_rate clk rate parent_rate = (-EINVAL, clk) := by
        rw [pll_set_rate_eq, hl]
        simp only [hr]
      have hall := (resolve_eq_none_iff rate cfgs).1 hr
      rw [key]
      simp only [true_iff, ne_eq, not_true_eq_false, false_implies, true_and, true_or, and_true]
      exact Or.inr ⟨cfgs, rfl, hall⟩
    | some c =>
      have key : pll_set_rate clk rate parent_rate =
          (if clk.lock &&& PLL_LOCK ≠ 0 then 0 else -ETIMEDOUT, programmed clk c) := by
        rw [pll_set_rate_eq, hl]
        simp only [hr]
      have hex : ¬ ∀ e ∈ cfg_entries cfgs, e.rate ≠ rate := by
        intro hall
        rw [(resolve_eq_none_iff rate cfgs).2 hall] at hr
        cases hr
      have hbit : clk.lock &&& PLL_LOCK = clk.lock % 2 := Nat.and_one_is_mod _
      rw [key]
      simp only [hbit]
      rcases Nat.mod_two_eq_zero_or_one clk.lock with h | h
      · simp [h, EINVAL, ETIMEDOUT]
        by_contra hne
        exact hex (fun e he heq => hne ⟨e, he, heq⟩)
      · simp [h, EINVAL, ETIMEDOUT]
        by_contra hne
        exact hex (fun e he heq => hne ⟨e, he, heq⟩)

/-- Claim C4 on the PGU table with parent 27000000: rate 51000000 is no entry
and gives `-EINVAL`; rate 50000000 with the lock bit clear gives
`-ETIMEDOUT`. -/
theorem C4_set_rate_outcomes_witness :
    (pll_set_rate (pll_clk_init pgu_pll_data 1) 51000000 27000000).1 = -EINVAL ∧
    (pll_set_rate (pll_clk_init pgu_pll_data 2) 50000000 27000000).1 = -ETIMEDOUT :=
  ⟨(C4_set_rate_outcomes (pll_clk_init pgu_pll_data 1) 51000000 27000000).1.2
      (Or.inr ⟨pgu_cfg_table, rfl, by decide⟩),
   ((C4_set_rate_outcomes (pll_clk_init pgu_pll_data 2) 50000000 27000000).2.1
      (by decide)).2 (by decide)⟩

/-- Claim C5: a `pll_set_rate` call that returns `-EINVAL` leaves the registers
and the write trace as they were; a call whose requested rate resolves to the
first matching entry `c` of the parent rate's list appends exactly the writes
`encode_div c.idiv 0` at offset 0, `encode_div c.fbdiv 0` at offset 4 and
`encode_div c.odiv 1` at offset 8, in this order, whatever the lock word. -/
theorem C5_set_rate_writes (clk : pll_clk) (rate parent_rate : Nat) :
    ((pll_set_rate clk rate parent_rate).1 = -EINVAL →
        (pll_set_rate clk rate parent_rate).2.writes = clk.writes ∧
        (pll_set_rate clk rate parent_rate).2.base = clk.base) ∧
    (∀ cfgs c, parent_list parent_rate clk.pll_data.pll_table = some cfgs →
        resolve rate cfgs = some c →
        (pll_set_rate clk rate parent_rate).2.writes =
          clk.writes ++ [(0, encode_div c.idiv 0), (4, encode_div c.fbdiv 0),
            (8, encode_div c.odiv 1)]) := by
  constructor
  · cases hl : parent_list parent_rate clk.pll_data.pll_table with
    | none =>
      have key : pll_set_rate clk rate parent_rate = (-EINVAL, clk) := by
        rw [pll_set_rate_eq, hl]
      rw [key]
      simp
    | some cfgs =>
      cases hr : resolve rate cfgs with
      | none =>
        have key : pll_set_rate clk rate parent_rate = (-EINVAL, clk) := by
          rw [pll_set_rate_eq, hl]
          simp only [hr]
        rw [key]
        simp
      | some c =>
        have key : pll_set_rate clk rate parent_rate =
            (if clk.lock &&& PLL_LOCK ≠ 0 then 0 else -ETIMEDOUT, programmed clk c) := by
          rw [pll_set_rate_eq, hl]
          simp only [hr]
        rw [key]
        intro h
        exfalso
        revert h
        simp only
        split <;> simp [EINVAL, ETIMEDOUT]
  · intro cfgs c hl hr
    have key : pll_set_rate clk rate parent_rate =
        (if clk.lock &&& PLL_LOCK ≠ 0 then 0 else -ETIMEDOUT, programmed clk c) := by
      rw [pll_set_rate_eq, hl]
      simp only [hr]
    rw [key]
    exact programmed_writes clk c

/-- Claim C5 on the PGU table: parent 27000000, rate 50000000 programs
idiv = 1, fbdiv = 100, odiv = 54, with the lock bit set or clear; rate 51000000
writes nothing. -/
theorem C5_set_rate_writes_witness :
    (pll_set_rate (pll_clk_init pgu_pll_data 1) 50000000 27000000).2.writes =
      [(0, encode_div 1 0), (4, encode_div 100 0), (8, encode_div 54 1)] ∧
    (pll_set_rate (pll_clk_init pgu_pll_data 0) 50000000 27000000).2.writes =
      [(0, encode_div 1 0), (4, encode_div 100 0), (8, encode_div 54 1)] ∧
    (pll_set_rate (pll_clk_init pgu_pll_data 1) 51000000 27000000).2.writes = [] :=
  ⟨(C5_set_rate_writes (pll_clk_init pgu_pll_data 1) 50000000 27000000).2
      pgu_cfg_table ⟨50000000, 1, 100, 54⟩ (by decide) (by decide),
   (C5_set_rate_writes (pll_clk_init pgu_pll_data 0) 50000000 27000000).2
      pgu_cfg_table ⟨50000000, 1, 100, 54⟩ (by decide) (by decide),
   ((C5_set_rate_writes (pll_clk_init pgu_pll_data 1) 51000000 27000000).1
      (by decide)).1⟩

/-! ## Rate recalculation -/

/-- Claim C6, as amended: for `BITS_PER_LONG` 32 or 64, a parent rate in
`unsigned long` range and 32-bit register words whose decoded `idiv * odiv` is
non-zero, `pll_recalc_rate` returns
`((parentRate * fbdiv mod 2^64) / (idiv * odiv)) mod 2^BITS_PER_LONG`.  With a
32-bit `long` the product is exact in 64 bits, so the result is
`floor(parentRate * fbdiv / (idiv * odiv)) mod 2^32`.  For either width the
result is `floor(parentRate * fbdiv / (idiv * odiv))` itself whenever that
quotient fits `unsigned long` and, for a 64-bit `long`, the product is below
`2^64`. -/
theorem C6_recalc_rate (w : Nat) (clk : pll_clk) (parent_rate : Nat)
    (hw : w = 32 ∨ w = 64) (hp : parent_rate < 2 ^ w)
    (hi : clk.base 0 < 2 ^ 32) (hf : clk.base 4 < 2 ^ 32) (ho : clk.base 8 < 2 ^ 32)
    (hd : div_get_value (clk.base 0) * div_get_value (clk.base 8) ≠ 0) :
    pll_recalc_rate w clk parent_rate =
      some ((parent_rate * div_get_value (clk.base 4)) % 2 ^ 64
        / (div_get_value (clk.base 0) * div_get_value (clk.base 8)) % 2 ^ w) ∧
    (w = 32 →
      pll_recalc_rate w clk parent_rate =
        some (parent_rate * div_get_value (clk.base 4)
          / (div_get_value (clk.base 0) * div_get_value (clk.base 8)) % 2 ^ 32)) ∧
    ((w = 64 → parent_rate * div_get_value (clk.base 4) < 2 ^ 64) →
      parent_rate * div_get_value (clk.base 4)
        / (div_get_value (clk.base 0) * div_get_value (clk.base 8)) < 2 ^ w →
      pll_recalc_rate w clk parent_rate =
        some (parent_rate * div_get_value (clk.base 4)
          / (div_get_value (clk.base 0) * div_get_value (clk.base 8)))) := by
  have hI := div_get_value_le (clk.base 0)
  have hF := div_get_value_le (clk.base 4)
  have hO := div_get_value_le (clk.base 8)
  have hbase : div_get_value (clk.base 0) * div_get_value (clk.base 8) < 2 ^ 32 := by
    calc div_get_value (clk.base 0) * div_get_value (clk.base 8)
        ≤ 126 * 126 := Nat.mul_le_mul hI hO
      _ < 2 ^ 32 := by decide
  have h32 : w = 32 → parent_rate * div_get_value (clk.base 4) < 2 ^ 64 := by
    intro h
    subst h
    calc parent_rate * div_get_value (clk.base 4)
        ≤ 2 ^ 32 * 126 := Nat.mul_le_mul (le_of_lt hp) hF
      _ < 2 ^ 64 := by decide
  have hgen : pll_recalc_rate w clk parent_rate =
      some ((parent_rate * div_get_value (clk.base 4)) % 2 ^ 64
        / (div_get_value (clk.base 0) * div_get_value (clk.base 8)) % 2 ^ w) := by
    unfold pll_recalc_rate pll_read PLL_REG_IDIV PLL_REG_FBDIV PLL_REG_ODIV
    simp only [Nat.mod_eq_of_lt hi, Nat.mod_eq_of_lt hf, Nat.mod_eq_of_lt ho,
      Nat.mod_eq_of_lt hbase, if_neg hd]
  refine ⟨hgen, ?_, ?_⟩
  · intro h
    rw [hgen, Nat.mod_eq_of_lt (h32 h), h]
  · intro hprod hfit
    have hP : parent_rate * div_get_value (clk.base 4) < 2 ^ 64 := by
      rcases hw with h | h
      · exact h32 h
      · exact hprod h
    rw [hgen, Nat.mod_eq_of_lt hP, Nat.mod_eq_of_lt hfit]

/-- Claim C6 at the specification's example: parent 27000000 with registers
decoding to idiv = 1, fbdiv = 84, odiv = 90 gives 25200000, for a 32-bit and
for a 64-bit `long`; and outside the range, with a 32-bit `long`, parent
100000000 with registers decoding to 1, 126, 1 gives 12600000000 modulo
`2^32`. -/
theorem C6_recalc_rate_witness :
    pll_recalc_rate 32 (programmed (pll_clk_init pgu_pll_data 1) ⟨25200000, 1, 84, 90⟩)
      27000000 = some 25200000 ∧
    pll_recalc_rate 64 (programmed (pll_clk_init pgu_pll_data 1) ⟨25200000, 1, 84, 90⟩)
      27000000 = some 25200000 ∧
    pll_recalc_rate 32 (programmed (pll_clk_init pgu_pll_data 1) ⟨0, 1, 126, 1⟩)
      100000000 = some (12600000000 % 2 ^ 32) :=
  ⟨((C6_recalc_rate 32 (programmed (pll_clk_init pgu_pll_data 1) ⟨25200000, 1, 84, 90⟩)
      27000000 (Or.inl rfl) (by decide) (by decide) (by decide) (by decide)
      (by decide)).2.2 (by decide) (by decide)).trans (by decide),
   ((C6_recalc_rate 64 (programmed (pll_clk_init pgu_pll_data 1) ⟨25200000, 1, 84, 90⟩)
      27000000 (Or.inr rfl) (by decide) (by decide) (by decide) (by decide)
      (by decide)).2.2 (by decide) (by decide)).trans (by decide),
   ((C6_recalc_rate 32 (programmed (pll_clk_init pgu_pll_data 1) ⟨0, 1, 126, 1⟩)
      100000000 (Or.inl rfl) (by decide) (by decide) (by decide) (by decide)
      (by decide)).2.1 rfl).trans (by decide)⟩

/-- Claim C6 as stated fails.  With a 32-bit `long`, parent rate 100000000 and
registers decoding to idiv = 1, fbdiv = 126, odiv = 1, the quotient 12600000000
is cut to 32 bits on return.  With a 64-bit `long`, parent rate `2^63` and
registers decoding to 2, 2, 2, the product wraps to 0 before the division. -/
theorem C6_counterexample :
    (¬ ∀ (clk : pll_clk) (parent_rate : Nat), parent_rate < 2 ^ 32 →
        clk.base 0 < 2 ^ 32 → clk.base 4 < 2 ^ 32 → clk.base 8 < 2 ^ 32 →
        div_get_value (clk.base 0) * div_get_value (clk.base 8) ≠ 0 →
        pll_recalc_rate 32 clk parent_rate =
          some (parent_rate * div_get_value (clk.base 4)
            / (div_get_value (clk.base 0) * div_get_value (clk.base 8)))) ∧
    (¬ ∀ (clk : pll_clk) (parent_rate : Nat), parent_rate < 2 ^ 64 →
        clk.base 0 < 2 ^ 32 → clk.base 4 < 2 ^ 32 → clk.base 8 < 2 ^ 32 →
        div_get_value (clk.base 0) * div_get_value (clk.base 8) ≠ 0 →
        pll_recalc_rate 64 clk parent_rate =
          some (parent_rate * div_get_value (clk.base 4)
            / (div_get_value (clk.base 0) * div_get_value (clk.base 8)))) := by
  constructor
  · intro h
    have h1 := h (programmed (pll_clk_init pgu_pll_data 1) ⟨0, 1, 126, 1⟩) 100000000
      (by decide) (by decide) (by decide) (by decide) (by decide)
    revert h1
    decide
  · intro h
    have h1 := h (programmed (pll_clk_init pgu_pll_data 1) ⟨0, 2, 2, 2⟩) (2 ^ 63)
      (by decide) (by decide) (by decide) (by decide) (by decide)
    revert h1
    decide

/-- A 32-bit `long` cuts the quotient: parent rate 100000000 with registers
decoding to 1, 126, 1 yields 12600000000 reduced modulo `2^32`. -/
theorem recalc_rate_truncated_32 :
    pll_recalc_rate 32 (programmed (pll_clk_init pgu_pll_data 1) ⟨0, 1, 126, 1⟩) 100000000
      = some 4010065408 := by
  decide

/-- With a 64-bit `long` the 64-bit product can wrap: parent rate `2^63` with
registers decoding to 2, 2, 2 yields 0. -/
theorem recalc_rate_wrapped_64 :
    pll_recalc_rate 64 (programmed (pll_clk_init pgu_pll_data 1) ⟨0, 2, 2, 2⟩) (2 ^ 63)
      = some 0 := by
  decide

/-- Reading back the rate from registers that hold the encoded dividers of an
entry whose dividers are between 1 and 126. -/
theorem recalc_of_encoded (w : Nat) (clk : pll_clk) (e : pll_cfg) (p : Nat)
    (h0 : clk.base 0 = encode_div e.idiv 0) (h4 : clk.base 4 = encode_div e.fbdiv 0)
    (h8 : clk.base 8 = encode_div e.odiv 1)
    (hi : 1 ≤ e.idiv ∧ e.idiv ≤ 126) (hf : 1 ≤ e.fbdiv ∧ e.fbdiv ≤ 126)
    (ho : 1 ≤ e.odiv ∧ e.odiv ≤ 126) :
    pll_recalc_rate w clk p =
      if (e.idiv * e.odiv) % 2 ^ 32 = 0 then none
      else some ((p * e.fbdiv) % 2 ^ 64 / ((e.idiv * e.odiv) % 2 ^ 32) % 2 ^ w) := by
  have d0 := (decode_encode_table e.idiv (by omega) hi.1).1
  have d4 := (decode_encode_table e.fbdiv (by omega) hf.1).1
  have d8 := (decode_encode_table e.odiv (by omega) ho.1).2
  have l0 : encode_div e.idiv 0 % 2 ^ 32 = encode_div e.idiv 0 :=
    Nat.mod_eq_of_lt (lt_trans (encode_div_lt _ _) (by decide))
  have l4 : encode_div e.fbdiv 0 % 2 ^ 32 = encode_div e.fbdiv 0 :=
    Nat.mod_eq_of_lt (lt_trans (encode_div_lt _ _) (by decide))
  have l8 : encode_div e.odiv 1 % 2 ^ 32 = encode_div e.odiv 1 :=
    Nat.mod_eq_of_lt (lt_trans (encode_div_lt _ _) (by decide))
  unfold pll_recalc_rate pll_read PLL_REG_IDIV PLL_REG_FBDIV PLL_REG_ODIV
  simp only [h0, h4, h8, l0, l4, l8, d0, d4, d8]

/-- Claim C7, as amended: with registers holding the words `pll_set_rate`
writes for an entry, `pll_recalc_rate` returns exactly the entry's rate for
every entry of the PGU table (parent 27000000); for every entry of the ARC
table (parent 33333333) it returns a rate at most 2 Hz below the entry's rate,
and the entry's rate itself only for the 33333333 entry. -/
theorem C7_table_round_trip (w : Nat) (clk : pll_clk) (e : pll_cfg)
    (hw : w = 32 ∨ w = 64)
    (h0 : clk.base 0 = encode_div e.idiv 0) (h4 : clk.base 4 = encode_div e.fbdiv 0)
    (h8 : clk.base 8 = encode_div e.odiv 1) :
    (e ∈ cfg_entries pgu_cfg_table → pll_recalc_rate w clk 27000000 = some e.rate) ∧
    (e ∈ cfg_entries arc_cfg_table →
      ∃ r, pll_recalc_rate w clk 33333333 = some r ∧ r ≤ e.rate ∧ e.rate ≤ r + 2 ∧
        (r = e.rate ↔ e.rate = 33333333)) := by
  constructor
  · intro he
    have hmem : e ∈ [(⟨25200000, 1, 84, 90⟩ : pll_cfg), ⟨50000000, 1, 100, 54⟩,
        ⟨74250000, 1, 44, 16⟩] := he
    simp only [List.mem_cons, List.mem_singleton, List.not_mem_nil, or_false] at hmem
    rcases hmem with h | h | h <;> subst h <;>
      rw [recalc_of_encoded w clk _ 27000000 h0 h4 h8 (by decide) (by decide) (by decide)] <;>
      rcases hw with h | h <;> subst h <;> decide
  · intro he
    have hmem : e ∈ [(⟨33333333, 1, 1, 1⟩ : pll_cfg), ⟨50000000, 1, 30, 20⟩,
        ⟨75000000, 2, 45, 10⟩, ⟨90000000, 2, 54, 10⟩, ⟨100000000, 1, 30, 10⟩,
        ⟨125000000, 2, 45, 6⟩] := he
    simp only [List.mem_cons, List.mem_singleton, List.not_mem_nil, or_false] at hmem
    rcases hmem with h | h | h | h | h | h <;> subst h <;>
      rw [recalc_of_encoded w clk _ 33333333 h0 h4 h8 (by decide) (by decide) (by decide)] <;>
      rcases hw with h | h <;> subst h
    · exact ⟨33333333, by decide, by decide, by decide, by decide⟩
    · exact ⟨33333333, by decide, by decide, by decide, by decide⟩
    · exact ⟨49999999, by decide, by decide, by decide, by decide⟩
    · exact ⟨49999999, by decide, by decide, by decide, by decide⟩
    · exact ⟨74999999, by decide, by decide, by decide, by decide⟩
    · exact ⟨74999999, by decide, by decide, by decide, by decide⟩
    · exact ⟨89999999, by decide, by decide, by decide, by decide⟩
    · exact ⟨89999999, by decide, by decide, by decide, by decide⟩
    · exact ⟨99999999, by decide, by decide, by decide, by decide⟩
    · exact ⟨99999999, by decide, by decide, by decide, by decide⟩
    · exact ⟨124999998, by decide, by decide, by decide, by decide⟩
    · exact ⟨124999998, by decide, by decide, by decide, by decide⟩

/-- Claim C7 on the device left by `pll_set_rate`: after setting 74250000 on the
PGU clock the rate read back is 74250000; after setting 125000000 on the ARC
clock it is within 2 Hz below. -/
theorem C7_table_round_trip_witness :
    pll_recalc_rate 32 (pll_set_rate (pll_clk_init pgu_pll_data 1) 74250000 27000000).2
      27000000 = some 74250000 ∧
    ∃ r, pll_recalc_rate 32 (pll_set_rate (pll_clk_init arc_pll_data 1) 125000000 33333333).2
      33333333 = some r ∧ r ≤ 125000000 ∧ 125000000 ≤ r + 2 ∧
        (r = 125000000 ↔ 125000000 = 33333333) :=
  ⟨(C7_table_round_trip 32 (pll_set_rate (pll_clk_init pgu_pll_data 1) 74250000 27000000).2
      ⟨74250000, 1, 44, 16⟩ (Or.inl rfl) (by decide) (by decide) (by decide)).1 (by decide),
   (C7_table_round_trip 32 (pll_set_rate (pll_clk_init arc_pll_data 1) 125000000 33333333).2
      ⟨125000000, 2, 45, 6⟩ (Or.inl rfl) (by decide) (by decide) (by decide)).2 (by decide)⟩

/-- Claim C7 as stated fails on the ARC table: with the registers programmed
for the entry (50000000, 1, 30, 20) and parent rate 33333333, the rate read back
is `floor(33333333 * 30 / 20) = 49999999`, for a 32-bit and for a 64-bit
`long`. -/
theorem C7_counterexample :
    (⟨50000000, 1, 30, 20⟩ : pll_cfg) ∈ cfg_entries arc_cfg_table ∧
    (pll_set_rate (pll_clk_init arc_pll_data 1) 50000000 33333333).2.writes =
      [(0, encode_div 1 0), (4, encode_div 30 0), (8, encode_div 20 1)] ∧
    pll_recalc_rate 32 (pll_set_rate (pll_clk_init arc_pll_data 1) 50000000 33333333).2
      33333333 = some 49999999 ∧
    pll_recalc_rate 64 (pll_set_rate (pll_clk_init arc_pll_data 1) 50000000 33333333).2
      33333333 = some 49999999 ∧
    (49999999 : Nat) ≠ 50000000 := by
  decide

/-! ## CPU frequency target -/

/-- Conversion of a `long` to a 32-bit `unsigned long`, with the modulus as a
literal. -/
theorem to_ulong_32 (r : Int) : to_ulong 32 r = (r % 4294967296).toNat := by
  unfold to_ulong; norm_num

/-- Conversion of a `long` to a 64-bit `unsigned long`, with the modulus as a
literal. -/
theorem to_ulong_64 (r : Int) : to_ulong 64 r = (r % 18446744073709551616).toNat := by
  unfold to_ulong; norm_num

/-- The body of `hs_cpufreq_target_index` for a table frequency `f` (kHz) with
`1 ≤ f ≤ 2000000`, in terms of the signed value `r` of the rounded rate. -/
theorem target_index_eq (w : Nat) (clk_round_rate clk_set_rate : Nat → Int)
    (freq_table : List cpufreq_frequency_table) (index : Nat)
    (entry : cpufreq_frequency_table) (r : Int)
    (hw : w = 32 ∨ w = 64)
    (hidx : freq_table[index]? = some entry)
    (hf1 : 1 ≤ entry.frequency) (hf2 : entry.frequency ≤ 2000000)
    (hr : clk_round_rate (entry.frequency * 1000) = r)
    (hlo : -(2 : Int) ^ (w - 1) ≤ r) (hhi : r < (2 : Int) ^ (w - 1)) :
    hs_cpufreq_target_index w clk_round_rate clk_set_rate freq_table index =
      some (if (entry.frequency : Int) * 1000 - 1000 ≤ r ∧ r ≤ (entry.frequency : Int) * 1000 + 1000
        then (if clk_set_rate r.toNat ≠ 0 then -EINVAL else 0, [r.toNat])
        else (-EINVAL, [])) := by
  unfold hs_cpufreq_target_index
  rw [hidx]
  simp only [Nat.not_lt_zero, if_false, HS_CPUFREQ_MAX_DEVIATION, ulong_sub]
  rcases hw with h | h <;> subst h
  · rw [to_ulong_32]
    have e1 : entry.frequency % 2 ^ 32 = entry.frequency := Nat.mod_eq_of_lt (by omega)
    have e2 : entry.frequency * 1000 % 2 ^ 32 = entry.frequency * 1000 :=
      Nat.mod_eq_of_lt (by omega)
    have e3 : (entry.frequency * 1000 + (2 ^ 32 - 1000 % 2 ^ 32)) % 2 ^ 32
        = entry.frequency * 1000 - 1000 := by omega
    have e4 : (entry.frequency * 1000 + 1000) % 2 ^ 32 = entry.frequency * 1000 + 1000 :=
      Nat.mod_eq_of_lt (by omega)
    simp only [e1, e2, e3, e4, hr]
    norm_num at hlo hhi
    by_cases hin : (entry.frequency : Int) * 1000 - 1000 ≤ r ∧
        r ≤ (entry.frequency : Int) * 1000 + 1000
    · have hX : (r % 4294967296).toNat = r.toNat := by omega
      have hno : ¬ ((r % 4294967296).toNat < entry.frequency * 1000 - 1000 ∨
          (r % 4294967296).toNat > entry.frequency * 1000 + 1000) := by omega
      rw [if_neg hno, if_pos hin, hX]
      split <;> rfl
    · have hyes : (r % 4294967296).toNat < entry.frequency * 1000 - 1000 ∨
          (r % 4294967296).toNat > entry.frequency * 1000 + 1000 := by omega
      rw [if_pos hyes, if_neg hin]
  · rw [to_ulong_64]
    have e1 : entry.frequency % 2 ^ 64 = entry.frequency := Nat.mod_eq_of_lt (by omega)
    have e2 : entry.frequency * 1000 % 2 ^ 64 = entry.frequency * 1000 :=
      Nat.mod_eq_of_lt (by omega)
    have e3 : (entry.frequency * 1000 + (2 ^ 64 - 1000 % 2 ^ 64)) % 2 ^ 64
        = entry.frequency * 1000 - 1000 := by omega
    have e4 : (entry.frequency * 1000 + 1000) % 2 ^ 64 = entry.frequency * 1000 + 1000 :=
      Nat.mod_eq_of_lt (by omega)
    simp only [e1, e2, e3, e4, hr]
    norm_num at hlo hhi
    by_cases hin : (entry.frequency : Int) * 1000 - 1000 ≤ r ∧
        r ≤ (entry.frequency : Int) * 1000 + 1000
    · have hX : (r % 18446744073709551616).toNat = r.toNat := by omega
      have hno : ¬ ((r % 18446744073709551616).toNat < entry.frequency * 1000 - 1000 ∨
          (r % 18446744073709551616).toNat > entry.frequency * 1000 + 1000) := by omega
      rw [if_neg hno, if_pos hin, hX]
      split <;> rfl
    · have hyes : (r % 18446744073709551616).toNat < entry.frequency * 1000 - 1000 ∨
          (r % 18446744073709551616).toNat > entry.frequency * 1000 + 1000 := by omega
      rw [if_pos hyes, if_neg hin]

/-- The frequencies of `hs_freq_table` before `CPUFREQ_TABLE_END` lie between
1 kHz and 2 GHz. -/
theorem hs_freq_table_range (index : Nat) (entry : cpufreq_frequency_table)
    (hidx : hs_freq_table[index]? = some entry)
    (hend : entry.frequency ≠ CPUFREQ_TABLE_END) :
    1 ≤ entry.frequency ∧ entry.frequency ≤ 2000000 := by
  rcases index with _ | _ | _ | _ | _ | _ | _ | n <;>
    simp [hs_freq_table] at hidx <;> subst hidx <;>
    first
      | (constructor <;> decide)
      | exact absurd rfl hend

/-- Claim C9: for every frequency `f` (kHz) of `hs_freq_table` and every `long`
value `r` returned by `clk_round_rate` for `f * 1000` (negative error codes
included), `hs_cpufreq_target_index` calls `clk_set_rate`, with rate `r`,
exactly when `f*1000 - 1000 ≤ r ≤ f*1000 + 1000`; otherwise it returns
`-EINVAL` without calling it; and it returns 0 exactly when `r` is within the
tolerance and `clk_set_rate` returns 0. -/
theorem C9_target_index (w : Nat) (clk_round_rate clk_set_rate : Nat → Int)
    (index : Nat) (entry : cpufreq_frequency_table) (r : Int)
    (hw : w = 32 ∨ w = 64)
    (hidx : hs_freq_table[index]? = some entry)
    (hend : entry.frequency ≠ CPUFREQ_TABLE_END)
    (hr : clk_round_rate (entry.frequency * 1000) = r)
    (hlo : -(2 : Int) ^ (w - 1) ≤ r) (hhi : r < (2 : Int) ^ (w - 1)) :
    ∃ ret calls,
      hs_cpufreq_target_index w clk_round_rate clk_set_rate hs_freq_table index
        = some (ret, calls) ∧
      (calls = [r.toNat] ↔
        ((entry.frequency : Int) * 1000 - 1000 ≤ r ∧
          r ≤ (entry.frequency : Int) * 1000 + 1000)) ∧
      (¬ ((entry.frequency : Int) * 1000 - 1000 ≤ r ∧
          r ≤ (entry.frequency : Int) * 1000 + 1000) → ret = -EINVAL ∧ calls = []) ∧
      (ret = 0 ↔
        (((entry.frequency : Int) * 1000 - 1000 ≤ r ∧
          r ≤ (entry.frequency : Int) * 1000 + 1000) ∧ clk_set_rate r.toNat = 0)) := by
  obtain ⟨hf1, hf2⟩ := hs_freq_table_range index entry hidx hend
  rw [target_index_eq w clk_round_rate clk_set_rate hs_freq_table index entry r hw hidx
    hf1 hf2 hr hlo hhi]
  by_cases hin : (entry.frequency : Int) * 1000 - 1000 ≤ r ∧
      r ≤ (entry.frequency : Int) * 1000 + 1000
  · rw [if_pos hin]
    by_cases hs : clk_set_rate r.toNat = 0
    · exact ⟨0, [r.toNat], by simp [hs], by simp [hin], by simp [hin], by simp [hin, hs]⟩
    · exact ⟨-EINVAL, [r.toNat], by simp [hs], by simp [hin], by simp [hin],
        by simp [hin, hs, EINVAL]⟩
  · rw [if_neg hin]
    exact ⟨-EINVAL, [], rfl, iff_of_false (by simp) hin, fun _ => ⟨rfl, rfl⟩,
      iff_of_false (by simp [EINVAL]) (fun h => hin h.1)⟩

/-- Claim C9 at index 1 (50000 kHz) with a 32-bit `long`: a rounded rate of
49999999 is accepted and set; the error code -22 returned by `clk_round_rate`
is rejected without a call of `clk_set_rate`. -/
theorem C9_target_index_witness :
    (∃ ret calls,
      hs_cpufreq_target_index 32 (fun _ => 49999999) (fun _ => 0) hs_freq_table 1
        = some (ret, calls) ∧
      (calls = [49999999] ↔ ((50000 : Int) * 1000 - 1000 ≤ 49999999 ∧
          (49999999 : Int) ≤ 50000 * 1000 + 1000)) ∧
      (¬ ((50000 : Int) * 1000 - 1000 ≤ 49999999 ∧
          (49999999 : Int) ≤ 50000 * 1000 + 1000) → ret = -EINVAL ∧ calls = []) ∧
      (ret = 0 ↔ (((50000 : Int) * 1000 - 1000 ≤ 49999999 ∧
          (49999999 : Int) ≤ 50000 * 1000 + 1000) ∧ (0 : Int) = 0))) ∧
    hs_cpufreq_target_index 32 (fun _ => -22) (fun _ => 0) hs_freq_table 1
      = some (-EINVAL, []) :=
  ⟨C9_target_index 32 (fun _ => 49999999) (fun _ => 0) 1 ⟨0, 0, 50000⟩ 49999999
      (Or.inl rfl) (by decide) (by decide) rfl (by decide) (by decide),
   by decide⟩

/-! ## Rate selection -/

/-- With a 32-bit `long` and both rates below `2^31`, the kernel `abs` of the
unsigned difference is the distance of the rates. -/
theorem abs_long_sub_32 (a b : Nat) (ha : a < 2 ^ 31) (hb : b < 2 ^ 31) :
    abs_long 32 (ulong_sub 32 a b) = (rate_distance a b : Int) := by
  unfold abs_long to_long to_ulong ulong_sub rate_distance
  norm_num at ha hb ⊢
  split_ifs <;> omega

/-- With a 64-bit `long` and both rates below `2^63`, the kernel `abs` of the
unsigned difference is the distance of the rates. -/
theorem abs_long_sub_64 (a b : Nat) (ha : a < 2 ^ 63) (hb : b < 2 ^ 63) :
    abs_long 64 (ulong_sub 64 a b) = (rate_distance a b : Int) := by
  unfold abs_long to_long to_ulong ulong_sub rate_distance
  norm_num at ha hb ⊢
  split_ifs <;> omega

/-- Both widths at once. -/
theorem abs_long_sub (w a b : Nat) (hw : w = 32 ∨ w = 64)
    (ha : a < 2 ^ (w - 1)) (hb : b < 2 ^ (w - 1)) :
    abs_long w (ulong_sub w a b) = (rate_distance a b : Int) := by
  rcases hw with h | h <;> subst h
  · exact abs_long_sub_32 a b ha hb
  · exact abs_long_sub_64 a b ha hb

/-- A value below `2^(w-1)` survives the conversions between `unsigned long`
and `long`. -/
theorem to_long_small (w x : Nat) (hw : w = 32 ∨ w = 64) (hx : x < 2 ^ (w - 1)) :
    to_long w x = (x : Int) ∧ to_ulong w (x : Int) = x := by
  unfold to_long to_ulong
  rcases hw with h | h <;> subst h <;> norm_num at hx ⊢ <;> constructor <;> omega

/-- In range, the loop of `pll_round_rate` is the scan of the specification
over the entries before the terminator. -/
theorem round_rate_loop_eq_scan (w rate : Nat) (hw : w = 32 ∨ w = 64)
    (hrate : rate < 2 ^ (w - 1)) (rest : List pll_cfg) :
    ∀ best : Nat, best < 2 ^ (w - 1) →
      (∀ e ∈ cfg_entries rest, e.rate < 2 ^ (w - 1)) →
      pll_round_rate_loop w rate rest (best : Int)
        = (nearest_scan rate (cfg_entries rest) best : Int) := by
  induction rest with
  | nil => intro best _ _; rfl
  | cons c rest ih =>
    intro best hbest hall
    by_cases h0 : c.rate = 0
    · simp [pll_round_rate_loop, cfg_entries, List.takeWhile, h0, nearest_scan]
    · have hent : cfg_entries (c :: rest) = c :: cfg_entries rest := by
        simp [cfg_entries, List.takeWhile, h0]
      rw [hent] at hall ⊢
      have hc : c.rate < 2 ^ (w - 1) := hall c (List.mem_cons_self _ _)
      have hrest : ∀ e ∈ cfg_entries rest, e.rate < 2 ^ (w - 1) :=
        fun e he => hall e (List.mem_cons_of_mem _ he)
      have hb := to_long_small w best hw hbest
      have hcl := to_long_small w c.rate hw hc
      simp only [pll_round_rate_loop, h0, if_false, nearest_scan, hb.2,
        abs_long_sub w rate c.rate hw hrate hc, abs_long_sub w rate best hw hrate hbest,
        Nat.cast_lt, hcl.1]
      split
      · exact ih c.rate hc hrest
      · exact ih best hbest hrest

/-- The scan returns the rate of the first entry at minimal distance. -/
theorem nearest_scan_first_nearest (requested : Nat) (es : List pll_cfg) :
    ∀ (pre : List pll_cfg) (c : pll_cfg) (mid : List pll_cfg),
      (∀ e ∈ pre, rate_distance requested c.rate < rate_distance requested e.rate) →
      (∀ e ∈ mid, rate_distance requested c.rate ≤ rate_distance requested e.rate) →
      is_first_nearest requested (pre ++ c :: (mid ++ es))
        (nearest_scan requested es c.rate) := by
  induction es with
  | nil =>
    intro pre c mid hpre hmid
    exact ⟨pre, c, mid, by simp, rfl, hpre, hmid⟩
  | cons e es ih =>
    intro pre c mid hpre hmid
    unfold nearest_scan
    split
    · rename_i hlt
      have h := ih (pre ++ c :: mid) e [] (by
        intro x hx
        rcases List.mem_append.1 hx with hx | hx
        · exact lt_trans hlt (hpre x hx)
        · rcases List.mem_cons.1 hx with hx | hx
          · rw [hx]; exact hlt
          · exact lt_of_lt_of_le hlt (hmid x hx)) (by simp)
      simpa using h
    · rename_i hge
      have h := ih pre c (mid ++ [e]) hpre (by
        intro x hx
        rcases List.mem_append.1 hx with hx | hx
        · exact hmid x hx
        · rw [List.mem_singleton.1 hx]; omega)
      simpa using h

/-- An entry at minimal distance is no farther than any entry of the list. -/
theorem is_first_nearest_le (requested : Nat) (entries : List pll_cfg) (r : Nat)
    (h : is_first_nearest requested entries r) :
    ∀ e ∈ entries, rate_distance requested r ≤ rate_distance requested e.rate := by
  obtain ⟨pre, c, post, hl, hc, hpre, hpost⟩ := h
  intro e he
  rw [hl] at he
  rw [← hc]
  rcases List.mem_append.1 he with he | he
  · exact le_of_lt (hpre e he)
  · rcases List.mem_cons.1 he with he | he
    · rw [he]
    · exact hpost e he

/-- Rate selection within the signed range: for `BITS_PER_LONG` 32 or 64, a
requested rate and entry rates all below `2^(BITS_PER_LONG - 1)`, and a parent
rate whose list is found and non-empty, `pll_round_rate` returns the rate of
the first entry at minimal distance from the requested rate. -/
theorem round_rate_nearest_in_range (w : Nat) (clk : pll_clk) (rate prate : Nat)
    (cfgs : List pll_cfg) (hw : w = 32 ∨ w = 64) (hrate : rate < 2 ^ (w - 1))
    (hlist : parent_list prate clk.pll_data.pll_table = some cfgs)
    (hne : cfg_entries cfgs ≠ [])
    (hall : ∀ e ∈ cfg_entries cfgs, e.rate < 2 ^ (w - 1)) :
    ∃ r : Nat, pll_round_rate w clk rate prate = (r : Int) ∧
      is_first_nearest rate (cfg_entries cfgs) r := by
  unfold pll_round_rate
  rw [pll_get_cfg_eq_parent_list, hlist]
  cases cfgs with
  | nil => exact absurd rfl hne
  | cons c0 rest =>
    by_cases h0 : c0.rate = 0
    · exfalso
      apply hne
      simp [cfg_entries, List.takeWhile, h0]
    · have hent : cfg_entries (c0 :: rest) = c0 :: cfg_entries rest := by
        simp [cfg_entries, List.takeWhile, h0]
      rw [hent] at hall ⊢
      have hc : c0.rate < 2 ^ (w - 1) := hall c0 (List.mem_cons_self _ _)
      have hrest : ∀ e ∈ cfg_entries rest, e.rate < 2 ^ (w - 1) :=
        fun e he => hall e (List.mem_cons_of_mem _ he)
      refine ⟨nearest_scan rate (cfg_entries rest) c0.rate, ?_, ?_⟩
      · simp only [h0, if_false, (to_long_small w c0.rate hw hc).1]
        exact round_rate_loop_eq_scan w rate hw hrate rest c0.rate hc hrest
      · have h := nearest_scan_first_nearest rate (cfg_entries rest) [] c0 []
          (by simp) (by simp)
        simpa using h

/-- The in-range statement applied to the PGU table: a request of 30000000 with
parent rate 27000000. -/
theorem round_rate_nearest_in_range_pgu :
    ∃ r : Nat, pll_round_rate 32 (pll_clk_init pgu_pll_data 0) 30000000 27000000 = (r : Int) ∧
      is_first_nearest 30000000 (cfg_entries pgu_cfg_table) r :=
  round_rate_nearest_in_range 32 (pll_clk_init pgu_pll_data 0) 30000000 27000000
    pgu_cfg_table (Or.inl rfl) (by decide) (by decide) (by decide) (by decide)

/-- Rate selection on the PGU table with parent rate 27000000: a request of
30000000 returns 25200000. -/
theorem round_rate_pgu_30000000 :
    pll_round_rate 32 (pll_clk_init pgu_pll_data 0) 30000000 27000000 = 25200000 ∧
    pll_round_rate 64 (pll_clk_init pgu_pll_data 0) 30000000 27000000 = 25200000 := by
  decide

/-- Claim C1 at its failing input.  On the PGU table with parent rate 27000000
and the requested rate `ULONG_MAX`, `pll_round_rate` returns 25200000, the
entry farthest from the request, both for a 32-bit and for a 64-bit `long`;
the first entry at minimal distance is 74250000, and 25200000 is not at
minimal distance. -/
theorem C1_round_rate_ulong_max :
    pll_round_rate 32 (pll_clk_init pgu_pll_data 0) (2 ^ 32 - 1) 27000000 = 25200000 ∧
    is_first_nearest (2 ^ 32 - 1) (cfg_entries pgu_cfg_table) 74250000 ∧
    ¬ is_first_nearest (2 ^ 32 - 1) (cfg_entries pgu_cfg_table) 25200000 ∧
    pll_round_rate 64 (pll_clk_init pgu_pll_data 0) (2 ^ 64 - 1) 27000000 = 25200000 ∧
    is_first_nearest (2 ^ 64 - 1) (cfg_entries pgu_cfg_table) 74250000 ∧
    ¬ is_first_nearest (2 ^ 64 - 1) (cfg_entries pgu_cfg_table) 25200000 := by
  refine ⟨by decide, ?_, ?_, by decide, ?_, ?_⟩
  · exact ⟨[⟨25200000, 1, 84, 90⟩, ⟨50000000, 1, 100, 54⟩], ⟨74250000, 1, 44, 16⟩, [],
      by decide, rfl, by decide, by decide⟩
  · intro h
    have := is_first_nearest_le _ _ _ h ⟨74250000, 1, 44, 16⟩ (by decide)
    revert this
    decide
  · exact ⟨[⟨25200000, 1, 84, 90⟩, ⟨50000000, 1, 100, 54⟩], ⟨74250000, 1, 44, 16⟩, [],
      by decide, rfl, by decide, by decide⟩
  · intro h
    have := is_first_nearest_le _ _ _ h ⟨74250000, 1, 44, 16⟩ (by decide)
    revert this
    decide

end Axs10x
